import Mathlib

/-!
Shallow embedding of the MotoApp real-time navigation engine (the `App`
component holding the geo-math primitives, route indexer, position snapper,
maneuver tracker, off-route detector/rerouter, update throttler and the
simulator loop), together with proofs of the spec claims C1-C10.

Numbers that JavaScript holds as IEEE doubles are modelled as exact
rationals (`ℚ`); wall-clock timestamps (`Date.now()` milliseconds) as `ℤ`;
JS array indices as `ℕ` with the source's own range guards reproduced.
The trigonometric functions (`Math.cos`, `Math.atan2`, `Math.sqrt`) used by
`calculateBearing` and `getDistanceMeters` (haversine) are not exactly
representable in an executable embedding; where a claim genuinely depends
only on order or sign we model them as stated at the definition site
(squared planar distance for nearest-segment comparisons, since `Math.sqrt`
is strictly monotone on nonnegative inputs and the source only compares
distances; an abstract bearing / metre-distance parameter elsewhere).
-/

namespace MotoApp

/-- Structure `LatLng` from `types.ts`: `{lat, lng}` in decimal degrees. -/
structure LatLng where
  lat : ℚ
  lng : ℚ
deriving DecidableEq

/-- Structure `Maneuver` from `types.ts` (fields used by the navigation core;
`type` is an enumerated string irrelevant to the claims and kept as `String`). -/
structure Maneuver where
  instruction : String
  distance : ℚ
  type : String
  location : Option LatLng
  roadName : Option String
deriving DecidableEq

/-- Structure `RouteResponse` from `types.ts` (the `stats`/`warnings` payload is
irrelevant to the navigation pipeline and omitted from the embedding). -/
structure RouteResponse where
  polyline : List LatLng
  distance : ℚ
  duration : ℚ
  maneuvers : List Maneuver
deriving DecidableEq

/-- Status enum `AppStatus` from `types.ts`. -/
inductive AppStatus where
  | idle
  | preview
  | confirm
  | navigating
  | rerouting
  | arrived
  | error
deriving DecidableEq

/-- Truncation toward zero, the rounding JavaScript's `%` operator applies
to the quotient: `x % y = x - y * trunc(x / y)`. -/
def jsTrunc (q : ℚ) : ℤ := if 0 ≤ q then ⌊q⌋ else ⌈q⌉

/-- JavaScript's remainder operator `%` on numbers (sign follows the dividend). -/
def jsMod (x y : ℚ) : ℚ := x - y * jsTrunc (x / y)

/-- Function `getDistance` in `App.tsx` is
`Math.sqrt((p2.lat-p1.lat)^2 + (p2.lng-p1.lng)^2)`, used only to COMPARE
candidate distances.  We model the squared planar distance; `Math.sqrt` is
strictly monotone on nonnegative inputs, so every comparison the source
makes between `getDistance` values coincides with the comparison of the
squares, and no claim depends on the magnitude itself. -/
def getDistanceSq (p1 p2 : LatLng) : ℚ :=
  (p2.lat - p1.lat) ^ 2 + (p2.lng - p1.lng) ^ 2

/-- Function `interpolate` in `App.tsx`: linear interpolation in lat/lng space. -/
def interpolate (p1 p2 : LatLng) (fraction : ℚ) : LatLng :=
  ⟨p1.lat + (p2.lat - p1.lat) * fraction, p1.lng + (p2.lng - p1.lng) * fraction⟩

/-- The wrap step of `smoothAngle` in `App.tsx`:
`let diff = target - current; if (diff > 180) diff -= 360; if (diff < -180) diff += 360;`. -/
def smoothAngleWrap (current target : ℚ) : ℚ :=
  let d1 := target - current
  let d2 := if 180 < d1 then d1 - 360 else d1
  if d2 < -180 then d2 + 360 else d2

/-- Function `smoothAngle` in `App.tsx`:
wrap the difference, blend by `factor`, reduce with `(... + 360) % 360`. -/
def smoothAngle (current target factor : ℚ) : ℚ :=
  jsMod (current + smoothAngleWrap current target * factor + 360) 360

/-- Function `getBearingDelta` in `App.tsx`:
`let diff = Math.abs(a - b) % 360; if (diff > 180) diff = 360 - diff; return diff;`. -/
def getBearingDelta (a b : ℚ) : ℚ :=
  let diff := jsMod |a - b| 360
  if 180 < diff then 360 - diff else diff

/-- Function `getAdvanceThreshold` in `App.tsx` (km/h → metres). -/
def getAdvanceThreshold (speedKmh : ℚ) : ℚ :=
  if speedKmh ≤ 10 then 20 else if speedKmh ≤ 30 then 30
  else if speedKmh ≤ 60 then 50 else 80

/-- Function `getBearingThreshold` in `App.tsx` (km/h → degrees). -/
def getBearingThreshold (speedKmh : ℚ) : ℚ :=
  if speedKmh ≤ 10 then 70 else if speedKmh ≤ 30 then 55
  else if speedKmh ≤ 60 then 45 else 35

/-- Function `getOffRouteThreshold` in `App.tsx` (km/h → metres). -/
def getOffRouteThreshold (speedKmh : ℚ) : ℚ :=
  if speedKmh ≤ 10 then 25 else if speedKmh ≤ 30 then 35
  else if speedKmh ≤ 60 then 55 else 80

/-!
## Position snapper (`getNearestPointOnLine` in `App.tsx`)

The source loops `for (let i = 0; i < line.length - 1; i++)` over consecutive
vertex pairs; that pair sequence is `segPairs`.  `calculateBearing` (atan2 of
a cos-scaled difference) is non-representable trig; its VALUE never matters
to any claim (the snapper only stores it), so it is an explicit function
parameter `calcB` of the embedding.
-/

/-- Consecutive vertex pairs of a polyline, in loop order. -/
def segPairs : List LatLng → List (LatLng × LatLng)
  | a :: b :: rest => (a, b) :: segPairs (b :: rest)
  | _ => []

/-- Result record of `getNearestPointOnLine`. -/
structure SnapResult where
  point : LatLng
  bearing : ℚ
  segmentIndex : ℕ
deriving DecidableEq

/-- Accumulator of the snapper loop: `minDistance` starts as `Infinity`
(modelled `none`), `nearestPoint = p`, `bearing = 0`, `segmentIndex = 0`. -/
structure SnapAcc where
  minDistSq : Option ℚ
  point : LatLng
  bearing : ℚ
  segmentIndex : ℕ
deriving DecidableEq

/-- Clamp `Math.max(0, Math.min(1, t))`. -/
def clampT (t : ℚ) : ℚ := max 0 (min 1 t)

/-- A zero-length segment, the loop's `dx === 0 && dy === 0` skip condition. -/
def isDegenerate (s e : LatLng) : Prop := e.lng - s.lng = 0 ∧ e.lat - s.lat = 0

instance (s e : LatLng) : Decidable (isDegenerate s e) := by
  unfold isDegenerate; infer_instance

/-- The unclamped projection parameter
`t = ((p.lng-start.lng)*dx + (p.lat-start.lat)*dy) / (dx*dx + dy*dy)`
(with `dx = end.lng - start.lng`, `dy = end.lat - start.lat` substituted). -/
def projT (p s e : LatLng) : ℚ :=
  ((p.lng - s.lng) * (e.lng - s.lng) + (p.lat - s.lat) * (e.lat - s.lat)) /
    ((e.lng - s.lng) * (e.lng - s.lng) + (e.lat - s.lat) * (e.lat - s.lat))

/-- The projected point of the loop body:
`projP = {start.lat + clampedT*dy, start.lng + clampedT*dx}`. -/
def projectClamped (p s e : LatLng) : LatLng :=
  ⟨s.lat + clampT (projT p s e) * (e.lat - s.lat),
   s.lng + clampT (projT p s e) * (e.lng - s.lng)⟩

/-- One iteration of the snapper loop at segment index `i` with endpoints
`s`, `e`: skip if `dx === 0 && dy === 0`, otherwise project, measure, and
keep the candidate on a STRICT improvement (`dist < minDistance`, so ties
keep the earlier segment). -/
def snapStep (calcB : LatLng → LatLng → ℚ) (p : LatLng) (i : ℕ) (s e : LatLng)
    (acc : SnapAcc) : SnapAcc :=
  if isDegenerate s e then acc
  else
    let projP := projectClamped p s e
    let dSq := getDistanceSq p projP
    match acc.minDistSq with
    | none => ⟨some dSq, projP, calcB s e, i⟩
    | some m => if dSq < m then ⟨some dSq, projP, calcB s e, i⟩ else acc

/-- The snapper loop over the remaining segment pairs, `i` the index of the
first of them. -/
def snapGo (calcB : LatLng → LatLng → ℚ) (p : LatLng) :
    List (LatLng × LatLng) → ℕ → SnapAcc → SnapAcc
  | [], _, acc => acc
  | (s, e) :: rest, i, acc => snapGo calcB p rest (i + 1) (snapStep calcB p i s e acc)

/-- Function `getNearestPointOnLine` in `App.tsx`. -/
def getNearestPointOnLine (calcB : LatLng → LatLng → ℚ) (p : LatLng)
    (line : List LatLng) : SnapResult :=
  let acc := snapGo calcB p (segPairs line) 0 ⟨none, p, 0, 0⟩
  ⟨acc.point, acc.bearing, acc.segmentIndex⟩

/-- Predicate: `p` lies exactly on the segment from `s` to `e`. -/
def onSegment (p s e : LatLng) : Prop :=
  ∃ t : ℚ, 0 ≤ t ∧ t ≤ 1 ∧
    p = ⟨s.lat + t * (e.lat - s.lat), s.lng + t * (e.lng - s.lng)⟩

/-!
## Route indexer

The `useEffect` on `route` computes `polylineDistancesRef`
(`distances[0] = 0; distances[i] = distances[i-1] + getDistanceMeters(...)`)
and `maneuverMetaRef := buildManeuverMeta(route, distances)`.
`getDistanceMeters` is the haversine great-circle distance (Earth radius
6,371,000 m), built from `sin`/`cos`/`atan2`; it is modelled as an explicit
function parameter `dM` — the only property of it any claim uses is that a
haversine distance is nonnegative (`R * c` with `c = 2*atan2(√a, √(1-a)) ≥ 0`),
which becomes a hypothesis where needed. -/

/-- Tail of the cumulative-distance loop: emits the running total `c` at the
previous vertex `p`, then continues over the remaining vertices. -/
def cumFrom (dM : LatLng → LatLng → ℚ) (c : ℚ) (p : LatLng) : List LatLng → List ℚ
  | [] => [c]
  | q :: rest => c :: cumFrom dM (c + dM p q) q rest

/-- Contents of `polylineDistancesRef`: `[0]` extended by
`distances[i-1] + dM(poly[i-1], poly[i])` (empty polyline yields no table,
matching the `route?.polyline?.length` guard). -/
def cumulativeDistances (dM : LatLng → LatLng → ℚ) : List LatLng → List ℚ
  | [] => []
  | p :: rest => cumFrom dM 0 p rest

/-- Meta record per maneuver (`maneuverMetaRef` element shape in `App.tsx`). -/
structure ManeuverMeta where
  distanceAlong : ℚ
  polylineIndex : ℕ
  postBearing : ℚ
  roadName : Option String
  location : Option LatLng
deriving DecidableEq

/-- Out-of-range default used to model guarded JS index accesses; every
source access modelled with it sits behind the source's own range guard. -/
def dfltMeta : ManeuverMeta := ⟨0, 0, 0, none, none⟩

/-- Loop of `findClosestPolylineIndex`: linear scan keeping the first index
of strictly minimal (planar) distance; `bestDistance` starts at `Infinity`
(modelled `none`). Squared distances, see `getDistanceSq`. -/
def findClosestAux (point : LatLng) : List LatLng → ℕ → ℕ → Option ℚ → ℕ
  | [], _, best, _ => best
  | q :: rest, i, best, bestD =>
    let d := getDistanceSq q point
    match bestD with
    | none => findClosestAux point rest (i + 1) i (some d)
    | some m =>
      if d < m then findClosestAux point rest (i + 1) i (some d)
      else findClosestAux point rest (i + 1) best (some m)

/-- Function `findClosestPolylineIndex` in `App.tsx`. -/
def findClosestPolylineIndex (point : LatLng) (line : List LatLng) : ℕ :=
  findClosestAux point line 0 0 none

/-- Function `findPolylineIndexByDistance` in `App.tsx`: first `i` with
`distances[i] >= target` gives `max 0 (i-1)`, else `max 0 (length-1)`
(truncated `ℕ` subtraction is exactly `Math.max(0, · - 1)` here). -/
def findPolylineIndexByDistance (distances : List ℚ) (target : ℚ) : ℕ :=
  match distances.findIdx? (fun d => target ≤ d) with
  | some i => i - 1
  | none => distances.length - 1

/-- The per-maneuver anchor resolution of `buildManeuverMeta`'s loop body:
with an anchor location, snap it to the closest polyline vertex and read
that vertex's cumulative distance (`distances[polylineIndex] ?? distanceAlong`);
without one, locate the scaled step-estimate `da0` in the distance table.
Returns `(polylineIndex, distanceAlong-before-clamp)`. -/
def maneuverAnchor (poly : List LatLng) (distances : List ℚ) (m : Maneuver)
    (da0 : ℚ) : ℕ × ℚ :=
  match m.location with
  | some loc =>
    let pIdx := findClosestPolylineIndex loc poly
    (pIdx, ((distances.get? pIdx).getD da0))
  | none => (findPolylineIndexByDistance distances da0, da0)

/-- The forward clamp of the loop body:
`if (prev && distanceAlong < prev.distanceAlong) distanceAlong = prev.distanceAlong`. -/
def clampForward (da : ℚ) : Option ℚ → ℚ
  | some pa => if da < pa then pa else da
  | none => da

/-- Loop body of `buildManeuverMeta`, carrying `cumulativeStepDist` and the
previous maneuver's (clamped) `distanceAlong`.  `calcB` abstracts
`calculateBearing` as in the snapper. -/
def buildMetaAux (calcB : LatLng → LatLng → ℚ) (poly : List LatLng)
    (distances : List ℚ) (scale : ℚ) :
    List Maneuver → ℚ → Option ℚ → List ManeuverMeta
  | [], _, _ => []
  | m :: rest, cum, prevAlong =>
    let stepDist := m.distance
    let anchor := maneuverAnchor poly distances m (cum * scale)
    let da2 := clampForward anchor.2 prevAlong
    let nextIndex := min (poly.length - 1) (anchor.1 + 1)
    let postBearing :=
      calcB ((poly.get? anchor.1).getD ⟨0, 0⟩) ((poly.get? nextIndex).getD ⟨0, 0⟩)
    let loc : Option LatLng :=
      match m.location with
      | some l => some l
      | none => poly.get? anchor.1
    ⟨da2, anchor.1, postBearing, m.roadName, loc⟩ ::
      buildMetaAux calcB poly distances scale rest (cum + stepDist) (some da2)

/-- Function `buildManeuverMeta` in `App.tsx`: empty when there are no maneuvers or
fewer than 2 distance entries; otherwise scale
`totalPolylineDist / routeData.distance` (1 when the reported distance is
not positive) and run the loop. -/
def buildManeuverMeta (calcB : LatLng → LatLng → ℚ) (routeData : RouteResponse)
    (distances : List ℚ) : List ManeuverMeta :=
  if routeData.maneuvers.length = 0 ∨ distances.length < 2 then []
  else
    let totalPolylineDist := (distances.getLast?).getD 0
    let scale := if 0 < routeData.distance then totalPolylineDist / routeData.distance else 1
    buildMetaAux calcB routeData.polyline distances scale routeData.maneuvers 0 none

/-!
## Maneuver tracker (tracking block at the end of `updateRiderLocation`)

The two `while` loops advance/retreat `activeIndex`; each is bounded by the
list length, so a fuel of `meta.length` is always sufficient and the
embedding passes exactly that.  `maneuverMeta[activeIndex]` accesses sit
behind the loops' own range guards; they are modelled with a default that
the guards keep unreachable. -/

/-- Loop `while (activeIndex < maneuverMeta.length - 1 && progressDist -
maneuverMeta[activeIndex].distanceAlong > skipPastThreshold) activeIndex += 1`
(`i + 1 < length` is the JS `i < length - 1` for nonnegative ints). -/
def skipForwardAux (meta : List ManeuverMeta) (progressDist thr : ℚ) :
    ℕ → ℕ → ℕ
  | 0, i => i
  | fuel + 1, i =>
    if i + 1 < meta.length ∧ thr < progressDist - ((meta.get? i).getD dfltMeta).distanceAlong then
      skipForwardAux meta progressDist thr fuel (i + 1)
    else i

/-- Loop `while (activeIndex > 0 && maneuverMeta[activeIndex].distanceAlong -
progressDist > backtrackThreshold) activeIndex -= 1`. -/
def backtrackAux (meta : List ManeuverMeta) (progressDist thr : ℚ) :
    ℕ → ℕ → ℕ
  | 0, i => i
  | fuel + 1, i =>
    if 0 < i ∧ thr < ((meta.get? i).getD dfltMeta).distanceAlong - progressDist then
      backtrackAux meta progressDist thr fuel (i - 1)
    else i

/-- The maneuver-tracking step of `updateRiderLocation`: clamp the stored
index, run the forward-skip and backtrack loops, then the advance decision
(`passed` when `distanceToManeuver <= -10`, else `bearing-match` when
`distanceToManeuver <= advanceThreshold && bearingDelta <= bearingThreshold`),
never advancing past the last maneuver.  Returns the new active index.
`headingToUse` is `finalHeading ?? smoothedHeadingRef.current`, always a
number, so the `null` branch of `bearingDelta` is dead code. -/
def trackStep (meta : List ManeuverMeta) (currentIdx : ℕ)
    (progressDist speedKmh headingToUse : ℚ) : ℕ :=
  let i0 := min (max currentIdx 0) (meta.length - 1)
  let i1 := skipForwardAux meta progressDist (getAdvanceThreshold speedKmh + 15) meta.length i0
  let i2 := backtrackAux meta progressDist (getAdvanceThreshold speedKmh + 30) meta.length i1
  let m := (meta.get? i2).getD dfltMeta
  let distanceToManeuver := m.distanceAlong - progressDist
  let bearingDelta := getBearingDelta headingToUse m.postBearing
  let bearingMatch := bearingDelta ≤ getBearingThreshold speedKmh
  let advance :=
    distanceToManeuver ≤ -10 ∨
      (distanceToManeuver ≤ getAdvanceThreshold speedKmh ∧ bearingMatch)
  if advance ∧ i2 + 1 < meta.length then i2 + 1 else i2

/-!
## Off-route detector / rerouter (strike counter block of `updateRiderLocation`)
-/

/-- The three mutable cells of the rerouter: `offRouteCounterRef`,
`lastRerouteTimeRef` and `reroutingRef`. -/
structure RerouteState where
  counter : ℕ
  lastReroute : ℤ
  rerouting : Bool
deriving DecidableEq

/-- One navigating fix through the off-route block: bump or reset the strike
counter from `distanceToLine > getOffRouteThreshold(newSpeed)`; when the
counter has reached 3, no reroute is in flight and more than 15000 ms passed
since `lastRerouteTimeRef`, stamp the time and either go in-flight issuing a
`calculateRoute` request (`hasStops`: the rebuilt `routePoints` has ≥ 2
entries) or immediately clear the flag and counter.  The returned `Bool` is
"a reroute request was issued by this fix". -/
def processFix (s : RerouteState) (t : ℤ) (distanceToLine speedKmh : ℚ)
    (hasStops : Bool) : RerouteState × Bool :=
  let c := if getOffRouteThreshold speedKmh < distanceToLine then s.counter + 1 else 0
  if 3 ≤ c ∧ s.rerouting = false then
    if 15000 < t - s.lastReroute then
      if hasStops then (⟨c, t, true⟩, true)
      else (⟨0, t, false⟩, false)
    else (⟨c, s.lastReroute, s.rerouting⟩, false)
  else (⟨c, s.lastReroute, s.rerouting⟩, false)

/-- The `.finally` of the reroute request: clear the in-flight flag and the
strike counter (route replacement itself is outside this state). -/
def completeReroute (s : RerouteState) : RerouteState :=
  ⟨0, s.lastReroute, false⟩

/-- An event hitting the rerouter: a processed fix, or the asynchronous
completion of an outstanding reroute request. -/
inductive NavEvent where
  | fix (t : ℤ) (distanceToLine speedKmh : ℚ) (hasStops : Bool)
  | complete
deriving DecidableEq

/-- Run a sequence of events, collecting the timestamps of issued reroute
requests in order. -/
def runTrace (s : RerouteState) : List NavEvent → RerouteState × List ℤ
  | [] => (s, [])
  | NavEvent.fix t dl sp h :: rest =>
    let r := processFix s t dl sp h
    let r2 := runTrace r.1 rest
    (r2.1, if r.2 then t :: r2.2 else r2.2)
  | NavEvent.complete :: rest => runTrace (completeReroute s) rest

/-!
## Update throttler (`lastStateUpdateTimeRef` gate of `updateRiderLocation`)

Every fix overwrites `pendingPosRef`/`pendingSpeedRef`; the commit fires only
when `Date.now() - lastStateUpdateTimeRef >= 100`, and then publishes the
pending (i.e. this fix's) values — last write wins. -/

/-- A fix as it reaches the throttle: wall-clock ms, final position, speed. -/
structure ThrottleFix where
  time : ℤ
  pos : LatLng
  speedKmh : ℚ
deriving DecidableEq

/-- Run fixes through the 100 ms commit gate, returning the final
`lastStateUpdateTimeRef` and the committed fixes in order. -/
def runThrottle (last : ℤ) : List ThrottleFix → ℤ × List ThrottleFix
  | [] => (last, [])
  | f :: rest =>
    if 100 ≤ f.time - last then
      let r := runThrottle f.time rest
      (r.1, f :: r.2)
    else runThrottle last rest

/-!
## Heading filter + committed-heading blend of `updateRiderLocation`
-/

/-- The heading-filter gate: `pendingHeadingRef` takes the new computed
heading only when `newSpeed >= 3 || isSimulating ||
pendingHeadingRef.current === null` (and the new heading is non-null). -/
def gatePendingHeading (pending finalHeading : Option ℚ) (newSpeed : ℚ)
    (isSimulating : Bool) : Option ℚ :=
  if 3 ≤ newSpeed ∨ isSimulating = true ∨ pending = none then
    match finalHeading with
    | some h => some h
    | none => pending
  else pending

/-- The three cells the committed-heading path touches:
`pendingHeadingRef`, `lastStateUpdateTimeRef` and the `heading` state. -/
structure HeadingState where
  pendingHeading : Option ℚ
  lastUpdate : ℤ
  heading : ℚ
deriving DecidableEq

/-- One fix through the heading filter and the throttled commit: gate the
pending heading, then — inside the 100 ms window check — blend the committed
heading toward the pending one by the inline
`diff`-wrap-then-`prev + diff * 0.15` formula, which is `smoothAngle` with
factor `0.15`. -/
def headingCommitStep (s : HeadingState) (finalHeading : Option ℚ)
    (newSpeed : ℚ) (isSimulating : Bool) (now : ℤ) : HeadingState :=
  let pending := gatePendingHeading s.pendingHeading finalHeading newSpeed isSimulating
  if 100 ≤ now - s.lastUpdate then
    match pending with
    | some h => ⟨pending, now, smoothAngle s.heading h (3 / 20)⟩
    | none => ⟨pending, now, s.heading⟩
  else ⟨pending, s.lastUpdate, s.heading⟩

/-!
## Simulator (`startSimulation` / `animate` / `stopSimulation`)
-/

/-- Function `startSimulation` begins only with a route whose polyline has at least
2 points: `if (!route || route.polyline.length < 2) return;`. -/
def startSimulationStarts (route : Option RouteResponse) : Bool :=
  match route with
  | none => false
  | some r => decide (2 ≤ r.polyline.length)

/-- Guard in front of the maneuver-tracking / off-route block:
`distances && distances.length > currentSegmentIndex && maneuverMeta.length > 0`. -/
def maneuverTrackingActive (distances : Option (List ℚ))
    (meta : List ManeuverMeta) (segIdx : ℕ) : Bool :=
  match distances with
  | none => false
  | some ds => decide (segIdx < ds.length) && decide (0 < meta.length)

/-- The position `updateRiderLocation` publishes: the snapped point while
navigating with a route, the raw fix otherwise. -/
def riderFinalPos (calcB : LatLng → LatLng → ℚ) (status : AppStatus)
    (route : Option RouteResponse) (newPos : LatLng) : LatLng :=
  match status, route with
  | AppStatus.navigating, some r => (getNearestPointOnLine calcB newPos r.polyline).point
  | _, _ => newPos

/-- Simulator-loop state: `distanceRef`, the app status, and whether a next
animation frame is scheduled (false after `stopSimulation`). -/
structure SimState where
  dist : ℚ
  status : AppStatus
  running : Bool
deriving DecidableEq

/-- One executed `animate` body (frames with `frameCount % 2 !== 0` only
re-schedule and are not modelled as steps): advance `distanceRef` by
`SPEED_FACTOR = 0.8`; on reaching `totalDist` stop the simulation and set
status `ARRIVED`, processing no fix; otherwise emit the fix for the new
distance.  A stopped simulation schedules no frames: further steps are
absorbing no-ops. -/
def simAnimStep (totalDist : ℚ) (s : SimState) : SimState × Option ℚ :=
  if s.running = false then (s, none)
  else
    let d := s.dist + 4 / 5
    if totalDist ≤ d then (⟨d, AppStatus.arrived, false⟩, none)
    else (⟨d, s.status, true⟩, some d)

/-- Iterate `n` animation steps, collecting the distances of processed fixes. -/
def runSimSteps (totalDist : ℚ) (s : SimState) : ℕ → SimState × List ℚ
  | 0 => (s, [])
  | n + 1 =>
    let r := simAnimStep totalDist s
    let r2 := runSimSteps totalDist r.1 n
    (r2.1, match r.2 with
      | some d => d :: r2.2
      | none => r2.2)

/-!
## Helper lemmas
-/

/-- JS `%` with a nonnegative dividend and positive divisor lands in `[0, y)`. -/
theorem jsMod_nonneg_lt (x y : ℚ) (hx : 0 ≤ x) (hy : 0 < y) :
    0 ≤ jsMod x y ∧ jsMod x y < y := by
  have hq : 0 ≤ x / y := div_nonneg hx hy.le
  have htr : jsTrunc (x / y) = ⌊x / y⌋ := by
    unfold jsTrunc
    simp [hq]
  have h1 : (⌊x / y⌋ : ℚ) ≤ x / y := Int.floor_le _
  have h2 : x / y < ⌊x / y⌋ + 1 := Int.lt_floor_add_one _
  unfold jsMod
  rw [htr]
  constructor
  · have := mul_le_mul_of_nonneg_left h1 hy.le
    rw [mul_div_cancel₀ _ hy.ne'] at this
    linarith
  · have := mul_lt_mul_of_pos_left h2 hy
    rw [mul_div_cancel₀ _ hy.ne'] at this
    linarith

/-- The wrapped difference always lies in the closed interval `[-180, 180]`. -/
theorem smoothAngleWrap_mem (c t : ℚ) (hc0 : 0 ≤ c) (hc1 : c < 360)
    (ht0 : 0 ≤ t) (ht1 : t < 360) :
    -180 ≤ smoothAngleWrap c t ∧ smoothAngleWrap c t ≤ 180 := by
  simp only [smoothAngleWrap]
  split_ifs with h1 h2 h3 <;> constructor <;> linarith

/-- The forward-skip loop does not move when its guard is already false. -/
theorem skipForwardAux_stop (meta : List ManeuverMeta) (prog thr : ℚ)
    (fuel i : ℕ)
    (h : ¬ (i + 1 < meta.length ∧
      thr < prog - ((meta.get? i).getD dfltMeta).distanceAlong)) :
    skipForwardAux meta prog thr fuel i = i := by
  cases fuel with
  | zero => rfl
  | succ n => simp only [skipForwardAux]; rw [if_neg h]

/-- The backtrack loop does not move when its guard is already false. -/
theorem backtrackAux_stop (meta : List ManeuverMeta) (prog thr : ℚ)
    (fuel i : ℕ)
    (h : ¬ (0 < i ∧
      thr < ((meta.get? i).getD dfltMeta).distanceAlong - prog)) :
    backtrackAux meta prog thr fuel i = i := by
  cases fuel with
  | zero => rfl
  | succ n => simp only [backtrackAux]; rw [if_neg h]

/-- Planar squared distance is nonnegative. -/
theorem getDistanceSq_nonneg (p q : LatLng) : 0 ≤ getDistanceSq p q :=
  add_nonneg (sq_nonneg _) (sq_nonneg _)

/-- Planar squared distance vanishes exactly on equal points. -/
theorem getDistanceSq_eq_zero_iff (p q : LatLng) :
    getDistanceSq p q = 0 ↔ q = p := by
  unfold getDistanceSq
  rw [add_eq_zero_iff_of_nonneg (sq_nonneg _) (sq_nonneg _),
    pow_eq_zero_iff (two_ne_zero), pow_eq_zero_iff (two_ne_zero),
    sub_eq_zero, sub_eq_zero]
  cases p with
  | mk plat plng =>
    cases q with
    | mk qlat qlng => simp [LatLng.mk.injEq, and_comm]

/-- Range: `clampT` lands in `[0,1]`. -/
theorem clampT_mem (t : ℚ) : 0 ≤ clampT t ∧ clampT t ≤ 1 :=
  ⟨le_max_left 0 _, max_le zero_le_one (min_le_left 1 t)⟩

/-- A point on a non-degenerate segment projects to itself (the unclamped
parameter is already the point's own `t ∈ [0,1]`). -/
theorem projectClamped_self (p s e : LatLng) (hnd : ¬ isDegenerate s e)
    (hon : onSegment p s e) : projectClamped p s e = p := by
  obtain ⟨t, ht0, ht1, hp⟩ := hon
  have hden : (e.lng - s.lng) * (e.lng - s.lng) + (e.lat - s.lat) * (e.lat - s.lat) ≠ 0 := by
    intro h
    apply hnd
    have h1 : (e.lng - s.lng) * (e.lng - s.lng) = 0 ∧ (e.lat - s.lat) * (e.lat - s.lat) = 0 :=
      (add_eq_zero_iff_of_nonneg (mul_self_nonneg _) (mul_self_nonneg _)).mp h
    exact ⟨mul_self_eq_zero.mp h1.1, mul_self_eq_zero.mp h1.2⟩
  have hplat : p.lat = s.lat + t * (e.lat - s.lat) := by rw [hp]
  have hplng : p.lng = s.lng + t * (e.lng - s.lng) := by rw [hp]
  have hT : projT p s e = t := by
    unfold projT
    rw [hplat, hplng, div_eq_iff hden]
    ring
  have hct : clampT t = t := by
    unfold clampT
    rw [min_eq_right ht1, max_eq_right ht0]
  unfold projectClamped
  rw [hT, hct, hp]

/-- Conversely, if the clamped projection is `p` itself, `p` lies on the
segment (the clamped parameter witnesses it). -/
theorem onSegment_of_projectClamped_eq (p s e : LatLng)
    (h : projectClamped p s e = p) : onSegment p s e :=
  ⟨clampT (projT p s e), (clampT_mem _).1, (clampT_mem _).2, h.symm⟩

/-- Once the running minimum is exactly 0, the rest of the snapper loop can
never strictly improve it and the accumulator is final. -/
theorem snapGo_locked (calcB : LatLng → LatLng → ℚ) (p : LatLng) :
    ∀ (L : List (LatLng × LatLng)) (i : ℕ) (acc : SnapAcc),
    acc.minDistSq = some 0 → snapGo calcB p L i acc = acc := by
  intro L
  induction L with
  | nil => intro i acc _; rfl
  | cons se rest ih =>
    intro i acc hacc
    obtain ⟨s, e⟩ := se
    have hstep : snapStep calcB p i s e acc = acc := by
      unfold snapStep
      split_ifs with hdeg
      · rfl
      · rw [hacc]
        simp only
        rw [if_neg (not_lt.mpr (getDistanceSq_nonneg _ _))]
    rw [snapGo, hstep]
    exact ih (i + 1) acc hacc

/-- The snapper loop skips every degenerate segment, leaving the
accumulator untouched. -/
theorem snapGo_all_degenerate (calcB : LatLng → LatLng → ℚ) (p : LatLng) :
    ∀ (L : List (LatLng × LatLng)) (i : ℕ) (acc : SnapAcc),
    (∀ se ∈ L, isDegenerate se.1 se.2) → snapGo calcB p L i acc = acc := by
  intro L
  induction L with
  | nil => intro i acc _; rfl
  | cons se rest ih =>
    intro i acc h
    obtain ⟨s, e⟩ := se
    have hdeg : isDegenerate s e := h (s, e) (List.mem_cons_self (s, e) rest)
    have hstep : snapStep calcB p i s e acc = acc := by
      unfold snapStep
      rw [if_pos hdeg]
    rw [snapGo, hstep]
    exact ih (i + 1) acc (fun x hx => h x (List.mem_cons_of_mem _ hx))

/-- Invariant run of the snapper loop: if segment `j` (relative to the
remaining list, absolute index `i0 + j`) is the first non-degenerate segment
carrying `p`, and the accumulator holds no candidate yet or only candidates
at strictly positive distance, the loop ends on `p` at absolute index
`i0 + j`. -/
theorem snapGo_finds (calcB : LatLng → LatLng → ℚ) (p : LatLng) :
    ∀ (L : List (LatLng × LatLng)) (j : ℕ) (i0 : ℕ) (acc : SnapAcc)
      (s0 e0 : LatLng),
    L.get? j = some (s0, e0) →
    ¬ isDegenerate s0 e0 → onSegment p s0 e0 →
    (∀ k < j, ∀ s e, L.get? k = some (s, e) →
      isDegenerate s e ∨ ¬ onSegment p s e) →
    (acc.minDistSq = none ∨ ∃ m, acc.minDistSq = some m ∧ 0 < m) →
    (snapGo calcB p L i0 acc).point = p ∧
    (snapGo calcB p L i0 acc).segmentIndex = i0 + j := by
  intro L
  induction L with
  | nil => intro j i0 acc s0 e0 hj; simp at hj
  | cons se rest ih =>
    intro j i0 acc s0 e0 hj hnd hon hmin hacc
    obtain ⟨s, e⟩ := se
    cases j with
    | zero =>
      rw [List.get?_cons_zero] at hj
      injection hj with hpair
      rw [Prod.mk.injEq] at hpair
      obtain ⟨rfl, rfl⟩ := hpair
      have hproj : projectClamped p s e = p := projectClamped_self p s e hnd hon
      have hdz : getDistanceSq p (projectClamped p s e) = 0 := by
        rw [hproj]
        exact (getDistanceSq_eq_zero_iff p p).mpr rfl
      have hstep : snapStep calcB p i0 s e acc = ⟨some 0, p, calcB s e, i0⟩ := by
        unfold snapStep
        rw [if_neg hnd]
        simp only
        rcases hacc with hnone | ⟨m, hm, hmpos⟩
        · rw [hnone]
          simp only
          rw [hdz, hproj]
        · rw [hm]
          simp only
          rw [if_pos (by rw [hdz]; exact hmpos), hdz, hproj]
      rw [snapGo, hstep,
        snapGo_locked calcB p rest (i0 + 1) ⟨some 0, p, calcB s e, i0⟩ rfl]
      exact ⟨rfl, (Nat.add_zero i0).symm⟩
    | succ k =>
      have hhead : isDegenerate s e ∨ ¬ onSegment p s e := by
        exact hmin 0 (Nat.succ_pos k) s e rfl
      have hacc' : (snapStep calcB p i0 s e acc).minDistSq = none ∨
          ∃ m, (snapStep calcB p i0 s e acc).minDistSq = some m ∧ 0 < m := by
        unfold snapStep
        split_ifs with hdeg
        · exact hacc
        · have hnotseg : ¬ onSegment p s e := by
            rcases hhead with h | h
            · exact absurd h hdeg
            · exact h
          have hdpos : 0 < getDistanceSq p (projectClamped p s e) := by
            rcases lt_or_eq_of_le (getDistanceSq_nonneg p (projectClamped p s e)) with h | h
            · exact h
            · exfalso
              apply hnotseg
              exact onSegment_of_projectClamped_eq p s e
                ((getDistanceSq_eq_zero_iff p (projectClamped p s e)).mp h.symm)
          rcases hacc with hnone | ⟨m, hm, hmpos⟩
          · rw [hnone]
            exact Or.inr ⟨_, rfl, hdpos⟩
          · rw [hm]
            simp only
            split_ifs with himp
            · exact Or.inr ⟨_, rfl, hdpos⟩
            · exact Or.inr ⟨m, hm, hmpos⟩
      have hmin' : ∀ k' < k, ∀ s' e', rest.get? k' = some (s', e') →
          isDegenerate s' e' ∨ ¬ onSegment p s' e' := by
        intro k' hk' s' e' hg
        exact hmin (k' + 1) (Nat.succ_lt_succ hk') s' e' hg
      have := ih k (i0 + 1) (snapStep calcB p i0 s e acc) s0 e0 hj hnd hon hmin' hacc'
      rw [snapGo]
      exact ⟨this.1, by rw [this.2]; omega⟩

/-- A polyline with fewer than 2 vertices has no segment pair: the snapper
loop never runs and the initial accumulator is returned. -/
theorem getNearestPointOnLine_short (calcB : LatLng → LatLng → ℚ) (p : LatLng)
    (line : List LatLng) (h : line.length < 2) :
    getNearestPointOnLine calcB p line = ⟨p, 0, 0⟩ := by
  have hnilp : segPairs line = [] := by
    cases line with
    | nil => rfl
    | cons a t =>
      cases t with
      | nil => rfl
      | cons b t2 => exact absurd h (by simp)
  unfold getNearestPointOnLine
  rw [hnilp]
  rfl

/-- A list whose entries pairwise differ by at least `c` cannot hold two
entries inside a window of width `w < c`. -/
theorem pairwise_sep_window (l : List ℤ) (c T w : ℤ) (hcw : w < c)
    (hp : l.Pairwise (fun a b => c ≤ b - a))
    (hw : ∀ x ∈ l, T ≤ x ∧ x ≤ T + w) : l.length ≤ 1 := by
  cases l with
  | nil => simp
  | cons a t =>
    cases t with
    | nil => simp
    | cons b t2 =>
      exfalso
      have hab : c ≤ b - a := (List.pairwise_cons.mp hp).1 b (List.mem_cons_self b t2)
      have ha := hw a (List.mem_cons_self a (b :: t2))
      have hb := hw b (List.mem_cons_of_mem a (List.mem_cons_self b t2))
      omega

/-- Monotonicity: `lastRerouteTimeRef` never decreases across a fix. -/
theorem processFix_lastReroute_mono (s : RerouteState) (t : ℤ) (dl sp : ℚ)
    (h : Bool) : s.lastReroute ≤ (processFix s t dl sp h).1.lastReroute := by
  simp only [processFix]
  split_ifs with h1 h2 h3 <;> dsimp only <;> omega

/-- An issuing fix stamps `lastRerouteTimeRef` with its own time, was more
than 15000 ms after the previous stamp, and carries at least 3 strikes. -/
theorem processFix_issued (s : RerouteState) (t : ℤ) (dl sp : ℚ) (h : Bool)
    (hiss : (processFix s t dl sp h).2 = true) :
    (processFix s t dl sp h).1.lastReroute = t ∧
    s.lastReroute + 15000 < t ∧
    3 ≤ (processFix s t dl sp h).1.counter := by
  simp only [processFix] at hiss ⊢
  set c := if getOffRouteThreshold sp < dl then s.counter + 1 else 0 with hc
  split_ifs at hiss ⊢ with h1 h2 h3
  exact ⟨rfl, by omega, h1.1⟩

/-- Every issued reroute in a trace is more than 15000 ms after the incoming
`lastRerouteTimeRef`, and issued reroutes are pairwise more than 15000 ms
apart. -/
theorem runTrace_separation (events : List NavEvent) : ∀ s : RerouteState,
    (∀ u ∈ (runTrace s events).2, s.lastReroute + 15000 < u) ∧
    (runTrace s events).2.Pairwise (fun a b => 15000 < b - a) := by
  induction events with
  | nil => intro s; exact ⟨by simp [runTrace], by simp [runTrace]⟩
  | cons ev rest ih =>
    intro s
    cases ev with
    | complete =>
      have h := ih (completeReroute s)
      exact ⟨fun u hu => h.1 u hu, h.2⟩
    | fix t dl sp hstops =>
      have h := ih (processFix s t dl sp hstops).1
      by_cases hiss : (processFix s t dl sp hstops).2 = true
      · obtain ⟨hlast, hgap, -⟩ := processFix_issued s t dl sp hstops hiss
        have hout : (runTrace s (NavEvent.fix t dl sp hstops :: rest)).2 =
            t :: (runTrace (processFix s t dl sp hstops).1 rest).2 := by
          simp only [runTrace, hiss, if_true]
        rw [hout]
        constructor
        · intro u hu
          rcases List.mem_cons.mp hu with rfl | hu2
          · omega
          · have := h.1 u hu2
            rw [hlast] at this
            omega
        · refine List.pairwise_cons.mpr ⟨?_, h.2⟩
          intro u hu
          have := h.1 u hu
          rw [hlast] at this
          omega
      · have hfalse : (processFix s t dl sp hstops).2 = false :=
          Bool.not_eq_true _ ▸ Bool.eq_false_iff.mpr hiss
        have hout : (runTrace s (NavEvent.fix t dl sp hstops :: rest)).2 =
            (runTrace (processFix s t dl sp hstops).1 rest).2 := by
          simp only [runTrace, hfalse, Bool.false_eq_true, if_false]
        rw [hout]
        have hmono := processFix_lastReroute_mono s t dl sp hstops
        exact ⟨fun u hu => by have := h.1 u hu; omega, h.2⟩

/-- Every committed fix is at least 100 ms after the incoming
`lastStateUpdateTimeRef`, commit times are pairwise at least 100 ms apart,
and the committed fixes form a sublist of the incoming fixes (each committed
value is the value of the fix that triggered the commit — last write wins). -/
theorem runThrottle_separation (fixes : List ThrottleFix) : ∀ last : ℤ,
    (∀ f ∈ (runThrottle last fixes).2, last + 100 ≤ f.time) ∧
    ((runThrottle last fixes).2.map ThrottleFix.time).Pairwise
      (fun a b => 100 ≤ b - a) ∧
    (runThrottle last fixes).2.Sublist fixes := by
  induction fixes with
  | nil =>
    intro last
    exact ⟨by simp [runThrottle], by simp [runThrottle], by simp [runThrottle]⟩
  | cons f rest ih =>
    intro last
    by_cases hc : 100 ≤ f.time - last
    · have hout : runThrottle last (f :: rest) =
          ((runThrottle f.time rest).1, f :: (runThrottle f.time rest).2) := by
        simp only [runThrottle]
        rw [if_pos hc]
      have h := ih f.time
      rw [hout]
      refine ⟨?_, ?_, h.2.2.cons₂ f⟩
      · intro u hu
        rcases List.mem_cons.mp hu with rfl | hu2
        · omega
        · have := h.1 u hu2
          omega
      · rw [List.map_cons]
        refine List.pairwise_cons.mpr ⟨?_, h.2.1⟩
        intro b hb
        obtain ⟨u, hu, rfl⟩ := List.mem_map.mp hb
        have := h.1 u hu
        omega
    · have hout : runThrottle last (f :: rest) = runThrottle last rest := by
        simp only [runThrottle]
        rw [if_neg hc]
      have h := ih last
      rw [hout]
      exact ⟨h.1, h.2.1, h.2.2.cons f⟩

/-- The cumulative-distance tail is sorted and bounded below by its opening
total, provided the metric is nonnegative. -/
theorem cumFrom_sorted (dM : LatLng → LatLng → ℚ) (hd : ∀ a b, 0 ≤ dM a b) :
    ∀ (l : List LatLng) (p : LatLng) (c : ℚ),
    (cumFrom dM c p l).Sorted (· ≤ ·) ∧ ∀ x ∈ cumFrom dM c p l, c ≤ x := by
  intro l
  induction l with
  | nil =>
    intro p c
    constructor
    · simp [cumFrom]
    · intro x hx
      simp only [cumFrom, List.mem_singleton] at hx
      exact hx ▸ le_refl c
  | cons q rest ih =>
    intro p c
    have h := ih q (c + dM p q)
    constructor
    · rw [cumFrom, List.sorted_cons]
      exact ⟨fun x hx => le_trans (by have := hd p q; linarith) (h.2 x hx), h.1⟩
    · intro x hx
      rw [cumFrom, List.mem_cons] at hx
      rcases hx with rfl | hx2
      · exact le_refl x
      · exact le_trans (by have := hd p q; linarith) (h.2 x hx2)

/-- The forward clamp never goes below the previous `distanceAlong`. -/
theorem clampForward_le (da pa : ℚ) : pa ≤ clampForward da (some pa) := by
  simp only [clampForward]
  split_ifs with h
  · exact le_refl pa
  · linarith

/-- The `distanceAlong` column produced by the meta loop is sorted, and —
when a previous value is carried in — bounded below by it: the forward clamp
makes the sequence non-decreasing for EVERY input. -/
theorem buildMetaAux_sorted (calcB : LatLng → LatLng → ℚ) (poly : List LatLng)
    (ds : List ℚ) (scale : ℚ) :
    ∀ (ms : List Maneuver) (cum : ℚ) (prevOpt : Option ℚ),
    ((buildMetaAux calcB poly ds scale ms cum prevOpt).map
      ManeuverMeta.distanceAlong).Sorted (· ≤ ·) ∧
    (∀ pa, prevOpt = some pa →
      ∀ x ∈ (buildMetaAux calcB poly ds scale ms cum prevOpt).map
        ManeuverMeta.distanceAlong, pa ≤ x) := by
  intro ms
  induction ms with
  | nil =>
    intro cum prevOpt
    exact ⟨by simp [buildMetaAux], by intro pa _ x hx; simp [buildMetaAux] at hx⟩
  | cons m rest ih =>
    intro cum prevOpt
    have hda2 := ih (cum + m.distance)
      (some (clampForward (maneuverAnchor poly ds m (cum * scale)).2 prevOpt))
    have hlow : ∀ x ∈ (buildMetaAux calcB poly ds scale rest (cum + m.distance)
        (some (clampForward (maneuverAnchor poly ds m (cum * scale)).2 prevOpt))).map
        ManeuverMeta.distanceAlong,
        clampForward (maneuverAnchor poly ds m (cum * scale)).2 prevOpt ≤ x :=
      hda2.2 _ rfl
    constructor
    · simp only [buildMetaAux, List.map_cons]
      rw [List.sorted_cons]
      exact ⟨hlow, hda2.1⟩
    · intro pa hpa x hx
      simp only [buildMetaAux, List.map_cons, List.mem_cons] at hx
      subst hpa
      rcases hx with rfl | hx2
      · exact clampForward_le _ pa
      · exact le_trans (clampForward_le _ pa) (hlow x hx2)

/-!
## Claim theorems
-/

/-- C6 (counterexample): the claim says the angular difference is wrapped
into the half-open interval `(-180, 180]` before blending, but at current
heading 180 and target 0 (both valid headings in `[0,360)`) the code's wrap
produces exactly `-180`, which is outside that interval. -/
theorem C6_wrap_counterexample :
    smoothAngleWrap 180 0 = -180 ∧ ¬ (-180 < smoothAngleWrap 180 0) := by
  norm_num [smoothAngleWrap]

/-- C6 (amended): heading smoothing blends through the shorter circular arc:
for headings in `[0,360)` the angular difference is wrapped into the CLOSED
interval `[-180, 180]` before blending (the endpoint `-180` is attained, so
the original claim's `(-180,180]` is off only at that endpoint) and for a
blend factor in `[0,1]` the result is reduced into `[0,360)`; in particular a
full blend (factor 1) from heading 350 toward 10 yields 10, not 340 the long
way, and the smallest absolute difference between 350 and 10 is 20. -/
theorem C6_smoothAngle_amended (c t f : ℚ) (hc0 : 0 ≤ c) (hc1 : c < 360)
    (ht0 : 0 ≤ t) (ht1 : t < 360) (hf0 : 0 ≤ f) (hf1 : f ≤ 1) :
    (-180 ≤ smoothAngleWrap c t ∧ smoothAngleWrap c t ≤ 180) ∧
    (0 ≤ smoothAngle c t f ∧ smoothAngle c t f < 360) ∧
    smoothAngle 350 10 1 = 10 ∧ getBearingDelta 350 10 = 20 := by
  have hw := smoothAngleWrap_mem c t hc0 hc1 ht0 ht1
  have hwf1 : -180 ≤ smoothAngleWrap c t * f := by nlinarith [hw.1, hw.2]
  have harg : 0 ≤ c + smoothAngleWrap c t * f + 360 := by linarith
  refine ⟨hw, ?_, ?_, ?_⟩
  · unfold smoothAngle
    exact jsMod_nonneg_lt _ 360 harg (by norm_num)
  · norm_num [smoothAngle, smoothAngleWrap, jsMod, jsTrunc]
  · norm_num [getBearingDelta, jsMod, jsTrunc]

/-- C6 witness: the amended claim applied at current 350, target 10, factor 1. -/
theorem C6_smoothAngle_amended_witness :
    ((0:ℚ) ≤ 350 ∧ (350:ℚ) < 360 ∧ (0:ℚ) ≤ 10 ∧ (10:ℚ) < 360 ∧
      (0:ℚ) ≤ 1 ∧ (1:ℚ) ≤ 1) ∧
    ((-180 ≤ smoothAngleWrap 350 10 ∧ smoothAngleWrap 350 10 ≤ 180) ∧
      (0 ≤ smoothAngle 350 10 1 ∧ smoothAngle 350 10 1 < 360) ∧
      smoothAngle 350 10 1 = 10 ∧ getBearingDelta 350 10 = 20) :=
  ⟨by norm_num,
    C6_smoothAngle_amended 350 10 1 (by norm_num) (by norm_num) (by norm_num)
      (by norm_num) (by norm_num) (by norm_num)⟩

/-- C1: during navigation, for an accepted fix at a stable active index
(no forward-skip, no backtrack) whose distance-to-maneuver is within the
speed-adaptive advance threshold but not yet past by 10 m, and with a next
maneuver available, the active maneuver index advances exactly when the
angular difference between the current heading and the active maneuver's
exit bearing is at most the speed-adaptive bearing threshold — so it
advances ONLY on a bearing match, and does advance on one. -/
theorem C1_advance_requires_bearing_match (meta : List ManeuverMeta)
    (cur : ℕ) (prog speed headingToUse : ℚ) (m : ManeuverMeta)
    (hget : meta.get? cur = some m)
    (hlast : cur + 1 < meta.length)
    (hnoskip : prog - m.distanceAlong ≤ getAdvanceThreshold speed + 15)
    (hnoback : m.distanceAlong - prog ≤ getAdvanceThreshold speed + 30)
    (hwin1 : -10 < m.distanceAlong - prog)
    (hwin2 : m.distanceAlong - prog ≤ getAdvanceThreshold speed) :
    (getBearingDelta headingToUse m.postBearing ≤ getBearingThreshold speed →
      trackStep meta cur prog speed headingToUse = cur + 1) ∧
    (getBearingThreshold speed < getBearingDelta headingToUse m.postBearing →
      trackStep meta cur prog speed headingToUse = cur) := by
  have hcur_le : cur ≤ meta.length - 1 := by omega
  have hi0 : min (max cur 0) (meta.length - 1) = cur := by
    rw [Nat.max_eq_left (Nat.zero_le cur), Nat.min_eq_left hcur_le]
  have hskip : skipForwardAux meta prog (getAdvanceThreshold speed + 15)
      meta.length cur = cur := by
    apply skipForwardAux_stop
    rw [hget]
    rintro ⟨-, hb⟩
    simp only [Option.getD_some] at hb
    linarith
  have hback : backtrackAux meta prog (getAdvanceThreshold speed + 30)
      meta.length cur = cur := by
    apply backtrackAux_stop
    rw [hget]
    rintro ⟨-, hb⟩
    simp only [Option.getD_some] at hb
    linarith
  constructor
  · intro hmatch
    simp only [trackStep, hi0, hskip, hback, hget, Option.getD_some]
    rw [if_pos ⟨Or.inr ⟨hwin2, hmatch⟩, hlast⟩]
  · intro hnomatch
    simp only [trackStep, hi0, hskip, hback, hget, Option.getD_some]
    rw [if_neg]
    rintro ⟨hadv | hadv, -⟩
    · linarith
    · exact absurd hadv.2 (not_le.mpr hnomatch)

/-- Concrete maneuver-meta list for the C1 scenario: three maneuvers at
distances 0, 100, 200 along the route, the middle one exiting at bearing 45. -/
def c1Meta : List ManeuverMeta :=
  [⟨0, 0, 45, none, none⟩, ⟨100, 5, 45, none, none⟩, ⟨200, 9, 120, none, none⟩]

/-- C1 witness: three maneuvers at distances 0, 100, 200 along the route
(a 100 m step between the first two), active index 1, fix at
`distanceAlong = 95`, speed 20 km/h (advance threshold 30, bearing
threshold 55): with heading equal to the exit bearing 45 the index advances
to 2; with heading 135 (90 degrees off) it stays at 1. -/
theorem C1_advance_requires_bearing_match_witness :
    ((c1Meta.get? 1 = some ⟨100, 5, 45, none, none⟩) ∧ 1 + 1 < c1Meta.length) ∧
    trackStep c1Meta 1 95 20 45 = 1 + 1 ∧
    trackStep c1Meta 1 95 20 135 = 1 :=
  ⟨⟨rfl, by norm_num [c1Meta]⟩,
    (C1_advance_requires_bearing_match c1Meta 1 95 20 45 ⟨100, 5, 45, none, none⟩
      rfl (by norm_num [c1Meta])
      (by norm_num [getAdvanceThreshold]) (by norm_num [getAdvanceThreshold])
      (by norm_num) (by norm_num [getAdvanceThreshold])).1
      (by norm_num [getBearingDelta, getBearingThreshold, jsMod, jsTrunc]),
    (C1_advance_requires_bearing_match c1Meta 1 95 20 135 ⟨100, 5, 45, none, none⟩
      rfl (by norm_num [c1Meta])
      (by norm_num [getAdvanceThreshold]) (by norm_num [getAdvanceThreshold])
      (by norm_num) (by norm_num [getAdvanceThreshold])).2
      (by norm_num [getBearingDelta, getBearingThreshold, jsMod, jsTrunc])⟩

/-- C5: snapping is idempotent on the route: a point lying exactly on a
non-degenerate segment of the polyline is returned unchanged, together with
the index of the segment it lies on — ties broken toward the first segment:
the hypothesis `hmin` states that `j` is the first non-degenerate segment
carrying the point.  The snapper projects with the parameter clamped to
`[0,1]`, skips zero-length segments, and keeps the segment of minimum
planar distance. -/
theorem C5_snap_idempotent (calcB : LatLng → LatLng → ℚ) (p s0 e0 : LatLng)
    (line : List LatLng) (j : ℕ)
    (hj : (segPairs line).get? j = some (s0, e0))
    (hnd : ¬ isDegenerate s0 e0) (hon : onSegment p s0 e0)
    (hmin : ∀ k < j, ∀ s e, (segPairs line).get? k = some (s, e) →
      isDegenerate s e ∨ ¬ onSegment p s e) :
    (getNearestPointOnLine calcB p line).point = p ∧
    (getNearestPointOnLine calcB p line).segmentIndex = j := by
  have h := snapGo_finds calcB p (segPairs line) j 0 ⟨none, p, 0, 0⟩ s0 e0
    hj hnd hon hmin (Or.inl rfl)
  constructor
  · show (snapGo calcB p (segPairs line) 0 ⟨none, p, 0, 0⟩).point = p
    exact h.1
  · show (snapGo calcB p (segPairs line) 0 ⟨none, p, 0, 0⟩).segmentIndex = j
    rw [h.2]
    omega

/-- C5 witness: the point (0,1) lies at parameter 1/2 on the single
non-degenerate segment from (0,0) to (0,2); the snapper returns it
unchanged with segment index 0. -/
theorem C5_snap_idempotent_witness :
    ((segPairs [(⟨0, 0⟩ : LatLng), ⟨0, 2⟩]).get? 0 = some (⟨0, 0⟩, ⟨0, 2⟩) ∧
      ¬ isDegenerate (⟨0, 0⟩ : LatLng) ⟨0, 2⟩ ∧
      onSegment ⟨0, 1⟩ ⟨0, 0⟩ ⟨0, 2⟩) ∧
    (getNearestPointOnLine (fun _ _ => 0) ⟨0, 1⟩ [⟨0, 0⟩, ⟨0, 2⟩]).point = ⟨0, 1⟩ ∧
    (getNearestPointOnLine (fun _ _ => 0) ⟨0, 1⟩ [⟨0, 0⟩, ⟨0, 2⟩]).segmentIndex = 0 := by
  have hnd : ¬ isDegenerate (⟨0, 0⟩ : LatLng) ⟨0, 2⟩ := by
    rintro ⟨h, -⟩
    norm_num at h
  have hon : onSegment ⟨0, 1⟩ ⟨0, 0⟩ ⟨0, 2⟩ :=
    ⟨1 / 2, by norm_num, by norm_num, by norm_num [LatLng.mk.injEq]⟩
  exact ⟨⟨rfl, hnd, hon⟩,
    C5_snap_idempotent (fun _ _ => 0) ⟨0, 1⟩ ⟨0, 0⟩ ⟨0, 2⟩ [⟨0, 0⟩, ⟨0, 2⟩] 0
      rfl hnd hon (fun k hk => absurd hk (Nat.not_lt_zero k))⟩

/-- C10 (implicit): the snapper is total on degenerate inputs: for a
polyline with fewer than 2 vertices, or one all of whose consecutive pairs
are zero-length, the loop never records a candidate and the initial values
are returned — the input point itself, bearing 0, segment index 0. -/
theorem C10_snap_degenerate_total (calcB : LatLng → LatLng → ℚ) (p : LatLng)
    (line : List LatLng)
    (h : line.length < 2 ∨ ∀ se ∈ segPairs line, isDegenerate se.1 se.2) :
    getNearestPointOnLine calcB p line = ⟨p, 0, 0⟩ := by
  rcases h with h | h
  · exact getNearestPointOnLine_short calcB p line h
  · have hsp : snapGo calcB p (segPairs line) 0 ⟨none, p, 0, 0⟩ = ⟨none, p, 0, 0⟩ :=
      snapGo_all_degenerate calcB p (segPairs line) 0 ⟨none, p, 0, 0⟩ h
    unfold getNearestPointOnLine
    rw [hsp]

/-- C10 witness: a two-vertex polyline whose only segment is zero-length:
the snapper returns the raw point (5,5) with bearing 0 and segment index 0. -/
theorem C10_snap_degenerate_total_witness :
    (∀ se ∈ segPairs [(⟨1, 1⟩ : LatLng), ⟨1, 1⟩], isDegenerate se.1 se.2) ∧
    getNearestPointOnLine (fun _ _ => 0) ⟨5, 5⟩ [⟨1, 1⟩, ⟨1, 1⟩] = ⟨⟨5, 5⟩, 0, 0⟩ := by
  have hdeg : ∀ se ∈ segPairs [(⟨1, 1⟩ : LatLng), ⟨1, 1⟩], isDegenerate se.1 se.2 := by
    intro se hse
    have : se = ((⟨1, 1⟩ : LatLng), (⟨1, 1⟩ : LatLng)) := List.mem_singleton.mp hse
    subst this
    exact ⟨by norm_num, by norm_num⟩
  exact ⟨hdeg,
    C10_snap_degenerate_total (fun _ _ => 0) ⟨5, 5⟩ [⟨1, 1⟩, ⟨1, 1⟩] (Or.inr hdeg)⟩

/-- C2: a reroute request is issued only when the off-route strike counter
has reached 3; issued requests in any trace are pairwise more than 15 s
apart, so at most one request falls in any 15-second window; and a single
near fix (distance-to-line within the off-route threshold) resets the strike
counter to 0. -/
theorem C2_reroute_strikes_and_cooldown (s : RerouteState)
    (events : List NavEvent) (T t : ℤ) (dl sp : ℚ) (hs : Bool)
    (s' : RerouteState) (hiss : processFix s t dl sp hs = (s', true)) :
    3 ≤ s'.counter ∧
    (runTrace s events).2.Pairwise (fun a b => 15000 < b - a) ∧
    ((∀ x ∈ (runTrace s events).2, T ≤ x ∧ x ≤ T + 15000) →
      (runTrace s events).2.length ≤ 1) ∧
    (∀ dl' sp', dl' ≤ getOffRouteThreshold sp' →
      (processFix s t dl' sp' hs).1.counter = 0) := by
  have hsep := runTrace_separation events s
  refine ⟨?_, hsep.2, ?_, ?_⟩
  · have h2 : (processFix s t dl sp hs).2 = true := by rw [hiss]
    have h1 : (processFix s t dl sp hs).1 = s' := by rw [hiss]
    have h3 := (processFix_issued s t dl sp hs h2).2.2
    rwa [h1] at h3
  · intro hw
    have hp : (runTrace s events).2.Pairwise (fun a b => 15001 ≤ b - a) :=
      hsep.2.imp (fun hab => by omega)
    exact pairwise_sep_window _ 15001 T 15000 (by omega) hp hw
  · intro dl' sp' hnear
    simp only [processFix]
    rw [if_neg (not_lt.mpr hnear), if_neg (fun hcon => by omega)]

/-- Initial rerouter state for the C2 scenario: two strikes accumulated,
no reroute issued yet. -/
def c2Start : RerouteState := ⟨2, 0, false⟩

/-- C2 scenario: a third far fix at t=20000 (issuing), reroute completion,
then a fresh off-route episode of three far fixes at t=40000..40002, whose
third fix issues again — 20002 ms after the first request. -/
def c2Events : List NavEvent :=
  [NavEvent.fix 20000 100 0 true, NavEvent.complete,
   NavEvent.fix 40000 100 0 true, NavEvent.fix 40001 100 0 true,
   NavEvent.fix 40002 100 0 true]

/-- C2 witness: the theorem applied to the concrete two-episode trace. -/
theorem C2_reroute_strikes_and_cooldown_witness :
    processFix c2Start 20000 100 0 true = (⟨3, 20000, true⟩, true) ∧
    (3 ≤ (⟨3, 20000, true⟩ : RerouteState).counter ∧
      (runTrace c2Start c2Events).2.Pairwise (fun a b => 15000 < b - a) ∧
      ((∀ x ∈ (runTrace c2Start c2Events).2, 0 ≤ x ∧ x ≤ 0 + 15000) →
        (runTrace c2Start c2Events).2.length ≤ 1) ∧
      (∀ dl' sp', dl' ≤ getOffRouteThreshold sp' →
        (processFix c2Start 20000 dl' sp' true).1.counter = 0)) := by
  have hiss : processFix c2Start 20000 100 0 true = (⟨3, 20000, true⟩, true) := by
    norm_num [processFix, c2Start, getOffRouteThreshold, Prod.mk.injEq,
      RerouteState.mk.injEq]
  exact ⟨hiss,
    C2_reroute_strikes_and_cooldown c2Start c2Events 0 20000 100 0 true _ hiss⟩

/-- C3: committed `RiderState` changes are separated by at least 100 ms of
wall-clock time; each committed fix is one of the delivered fixes (the one
that triggered the commit — last pending write wins); and any burst of fixes
all delivered within a 50 ms window (e.g. ten fixes in 50 ms) produces at
most one committed change. -/
theorem C3_throttle_commits (last : ℤ) (fixes : List ThrottleFix) (T : ℤ) :
    ((runThrottle last fixes).2.map ThrottleFix.time).Pairwise
      (fun a b => 100 ≤ b - a) ∧
    (runThrottle last fixes).2.Sublist fixes ∧
    ((∀ f ∈ fixes, T ≤ f.time ∧ f.time ≤ T + 50) →
      (runThrottle last fixes).2.length ≤ 1) := by
  have h := runThrottle_separation fixes last
  refine ⟨h.2.1, h.2.2, ?_⟩
  intro hw
  have hw2 : ∀ x ∈ (runThrottle last fixes).2.map ThrottleFix.time,
      T ≤ x ∧ x ≤ T + 50 := by
    intro x hx
    obtain ⟨u, hu, rfl⟩ := List.mem_map.mp hx
    exact hw u (h.2.2.subset hu)
  have hlen := pairwise_sep_window _ 100 T 50 (by omega) h.2.1 hw2
  rwa [List.length_map] at hlen

/-- C3 scenario: ten fixes delivered 5 ms apart, all within the 50 ms window
starting at t=10000. -/
def c3Fixes : List ThrottleFix :=
  [⟨10000, ⟨0, 0⟩, 50⟩, ⟨10005, ⟨0, 0⟩, 50⟩, ⟨10010, ⟨0, 0⟩, 50⟩,
   ⟨10015, ⟨0, 0⟩, 50⟩, ⟨10020, ⟨0, 0⟩, 50⟩, ⟨10025, ⟨0, 0⟩, 50⟩,
   ⟨10030, ⟨0, 0⟩, 50⟩, ⟨10035, ⟨0, 0⟩, 50⟩, ⟨10040, ⟨0, 0⟩, 50⟩,
   ⟨10045, ⟨0, 0⟩, 50⟩]

/-- C3 witness: the theorem applied to the ten-fixes-in-50ms burst. -/
theorem C3_throttle_commits_witness :
    (∀ f ∈ c3Fixes, 10000 ≤ f.time ∧ f.time ≤ 10000 + 50) ∧
    (((runThrottle 0 c3Fixes).2.map ThrottleFix.time).Pairwise
        (fun a b => 100 ≤ b - a) ∧
      (runThrottle 0 c3Fixes).2.Sublist c3Fixes ∧
      ((∀ f ∈ c3Fixes, 10000 ≤ f.time ∧ f.time ≤ 10000 + 50) →
        (runThrottle 0 c3Fixes).2.length ≤ 1)) := by
  have hw : ∀ f ∈ c3Fixes, 10000 ≤ f.time ∧ f.time ≤ 10000 + 50 := by
    intro f hf
    simp only [c3Fixes, List.mem_cons, List.not_mem_nil, or_false] at hf
    rcases hf with rfl | rfl | rfl | rfl | rfl | rfl | rfl | rfl | rfl | rfl <;>
      norm_num
  exact ⟨hw, C3_throttle_commits 0 c3Fixes 10000⟩

/-- C7: distance monotonicity: the cumulative along-polyline distance table
(`cum[0] = 0`, `cum[i] = cum[i-1] + segment distance`) is non-decreasing for
every nonnegative segment metric (the haversine distance is `R*c` with
`c ≥ 0`), and the per-maneuver `distanceAlong` sequence is non-decreasing in
the maneuver index — unconditionally, by the forward clamp. -/
theorem C7_distance_monotonicity (dM : LatLng → LatLng → ℚ)
    (hd : ∀ a b, 0 ≤ dM a b) (poly : List LatLng)
    (calcB : LatLng → LatLng → ℚ) (rd : RouteResponse) (ds : List ℚ) :
    (cumulativeDistances dM poly).Sorted (· ≤ ·) ∧
    ((buildManeuverMeta calcB rd ds).map ManeuverMeta.distanceAlong).Sorted
      (· ≤ ·) := by
  constructor
  · cases poly with
    | nil => simp [cumulativeDistances]
    | cons p rest => exact (cumFrom_sorted dM hd rest p 0).1
  · unfold buildManeuverMeta
    split_ifs with h
    · simp
    all_goals exact (buildMetaAux_sorted calcB rd.polyline ds _ rd.maneuvers 0 none).1

/-- C7 witness: a concrete two-segment polyline under the constant-1 metric
and a two-maneuver route with 100 m steps. -/
theorem C7_distance_monotonicity_witness :
    (∀ a b : LatLng, 0 ≤ (fun _ _ => (1:ℚ)) a b) ∧
    ((cumulativeDistances (fun _ _ => 1) [⟨0, 0⟩, ⟨0, 1⟩]).Sorted (· ≤ ·) ∧
      ((buildManeuverMeta (fun _ _ => 0)
          ⟨[⟨0, 0⟩, ⟨0, 1⟩, ⟨0, 2⟩], 200, 60,
            [⟨"a", 100, "straight", none, none⟩, ⟨"b", 100, "arrive", none, none⟩]⟩
          [0, 100, 200]).map ManeuverMeta.distanceAlong).Sorted (· ≤ ·)) :=
  ⟨fun a b => by norm_num,
    C7_distance_monotonicity (fun _ _ => 1) (fun a b => by norm_num) _
      (fun _ _ => 0) _ _⟩

/-- C4 (counterexample): the claim says the committed-heading update is
skipped entirely below 3 km/h, leaving the heading unchanged; but with speed
0 (not simulating), a frozen pending heading target of 90 and committed
heading 0, a fix at t=1000 still blends the committed heading to 13.5 — the
low-speed gate freezes the TARGET, not the commit. -/
theorem C4_lowspeed_heading_counterexample :
    ((0:ℚ) < 3) ∧
    (headingCommitStep ⟨some 90, 0, 0⟩ none 0 false 1000).heading = 27 / 2 ∧
    ¬ (headingCommitStep ⟨some 90, 0, 0⟩ none 0 false 1000).heading = 0 := by
  norm_num [headingCommitStep, gatePendingHeading, smoothAngle,
    smoothAngleWrap, jsMod, jsTrunc]

/-- C4 (amended): on every committed state update the committed heading is
exponentially blended toward the PENDING heading target with factor exactly
0.15; at speeds below 3 km/h outside simulation the pending target is frozen
(a new computed heading is ignored while a target exists), so the commit
still blends toward the last accepted target instead of being skipped. -/
theorem C4_heading_blend_amended (s : HeadingState) (fh : Option ℚ)
    (sp : ℚ) (sim : Bool) (now : ℤ) (hcommit : 100 ≤ now - s.lastUpdate) :
    (∀ h : ℚ, gatePendingHeading s.pendingHeading fh sp sim = some h →
      (headingCommitStep s fh sp sim now).heading =
        smoothAngle s.heading h (3 / 20)) ∧
    (sp < 3 → sim = false → s.pendingHeading ≠ none →
      gatePendingHeading s.pendingHeading fh sp sim = s.pendingHeading) := by
  constructor
  · intro h hg
    simp only [headingCommitStep, hg]
    rw [if_pos hcommit]
  · intro hsp hsim hpend
    subst hsim
    simp only [gatePendingHeading]
    rw [if_neg]
    rintro (h3 | hsim2 | hnone)
    · linarith
    · simp at hsim2
    · exact hpend hnone

/-- C4 witness: a commit at t=500 (last update 0) with speed 2 km/h, pending
target 40, committed heading 100: the target stays 40 and the committed
heading blends toward it with factor 0.15. -/
theorem C4_heading_blend_amended_witness :
    ((100:ℤ) ≤ 500 - 0) ∧
    ((∀ h : ℚ, gatePendingHeading (some 40) (some 200) 2 false = some h →
        (headingCommitStep ⟨some 40, 0, 100⟩ (some 200) 2 false 500).heading =
          smoothAngle 100 h (3 / 20)) ∧
      ((2:ℚ) < 3 → false = false → (some (40:ℚ)) ≠ none →
        gatePendingHeading (some 40) (some 200) 2 false = some 40)) :=
  ⟨by norm_num,
    C4_heading_blend_amended ⟨some 40, 0, 100⟩ (some 200) 2 false 500
      (by norm_num)⟩

/-- C8 (counterexample): the claim says simulation does not start for every
route with no maneuvers — but `startSimulation` only rejects a route whose
polyline has fewer than 2 points, so a 2-point route with an empty maneuver
list does start the simulation. -/
theorem C8_sim_starts_without_maneuvers_counterexample :
    (⟨[⟨0, 0⟩, ⟨0, 1⟩], 100, 60, []⟩ : RouteResponse).maneuvers = [] ∧
    2 ≤ (⟨[⟨0, 0⟩, ⟨0, 1⟩], 100, 60, []⟩ : RouteResponse).polyline.length ∧
    startSimulationStarts (some ⟨[⟨0, 0⟩, ⟨0, 1⟩], 100, 60, []⟩) = true :=
  ⟨rfl, by norm_num, rfl⟩

/-- C8 (amended): degenerate routes are handled without failure: simulation
refuses to start only when the polyline has fewer than 2 points; a route
with no maneuvers (or a too-short distance table) yields an EMPTY maneuver
meta, making the maneuver-tracking guard false so tracking is skipped; and
the published rider position is still the raw fix, the navigating snap path
returning the point unchanged on a sub-2-point polyline. -/
theorem C8_degenerate_route_amended (calcB : LatLng → LatLng → ℚ)
    (r : RouteResponse) (ds : List ℚ) (meta : List ManeuverMeta)
    (odist : Option (List ℚ)) (segIdx : ℕ) (p : LatLng) (st : AppStatus)
    (hdeg : r.polyline.length < 2) (hmeta : meta = []) :
    startSimulationStarts (some r) = false ∧
    (r.maneuvers = [] ∨ ds.length < 2 → buildManeuverMeta calcB r ds = []) ∧
    maneuverTrackingActive odist meta segIdx = false ∧
    riderFinalPos calcB st (some r) p = p := by
  refine ⟨?_, ?_, ?_, ?_⟩
  · simp only [startSimulationStarts]
    exact decide_eq_false (by omega)
  · intro h
    rcases h with h | h
    · unfold buildManeuverMeta
      rw [if_pos (Or.inl (by rw [h]; rfl))]
    · unfold buildManeuverMeta
      rw [if_pos (Or.inr h)]
  · subst hmeta
    cases odist with
    | none => rfl
    | some l => simp [maneuverTrackingActive]
  · cases st <;> try rfl
    show (getNearestPointOnLine calcB p r.polyline).point = p
    rw [getNearestPointOnLine_short calcB p r.polyline hdeg]

/-- C8 witness: a one-point route with no maneuvers: simulation does not
start, the meta is empty, tracking is inactive, and a raw fix at (3,4)
passes through unchanged even in navigating state. -/
theorem C8_degenerate_route_amended_witness :
    ((⟨[⟨0, 0⟩], 100, 60, []⟩ : RouteResponse).polyline.length < 2 ∧
      ([] : List ManeuverMeta) = []) ∧
    (startSimulationStarts (some ⟨[⟨0, 0⟩], 100, 60, []⟩) = false ∧
      ((⟨[⟨0, 0⟩], 100, 60, []⟩ : RouteResponse).maneuvers = [] ∨
          ([] : List ℚ).length < 2 →
        buildManeuverMeta (fun _ _ => 0) ⟨[⟨0, 0⟩], 100, 60, []⟩ [] = []) ∧
      maneuverTrackingActive none [] 0 = false ∧
      riderFinalPos (fun _ _ => 0) AppStatus.navigating
        (some ⟨[⟨0, 0⟩], 100, 60, []⟩) ⟨3, 4⟩ = ⟨3, 4⟩) :=
  ⟨⟨by norm_num, rfl⟩,
    C8_degenerate_route_amended (fun _ _ => 0) ⟨[⟨0, 0⟩], 100, 60, []⟩ [] []
      none 0 ⟨3, 4⟩ AppStatus.navigating (by norm_num) rfl⟩

/-- A stopped simulation is absorbing: no further step changes the state or
processes a fix (`stopSimulation` cancels the frame callback). -/
theorem runSimSteps_stopped (total : ℚ) :
    ∀ (n : ℕ) (s : SimState), s.running = false →
    runSimSteps total s n = (s, []) := by
  intro n
  induction n with
  | zero => intro s _; rfl
  | succ k ih =>
    intro s hstop
    have hstep : simAnimStep total s = (s, none) := by
      simp only [simAnimStep]
      rw [if_pos hstop]
    simp only [runSimSteps, hstep, ih s hstop]

/-- Every fix the simulator processes lies strictly below the route's total
polyline distance. -/
theorem runSimSteps_below_total (total : ℚ) :
    ∀ (n : ℕ) (s : SimState), ∀ d ∈ (runSimSteps total s n).2, d < total := by
  intro n
  induction n with
  | zero => intro s d hd; simp [runSimSteps] at hd
  | succ k ih =>
    intro s d hd
    by_cases hrun : s.running = false
    · rw [runSimSteps_stopped total (k + 1) s hrun] at hd
      simp at hd
    · have hrun2 : s.running = true := by
        revert hrun
        cases s.running <;> simp
      by_cases hreach : total ≤ s.dist + 4 / 5
      · have hstep : simAnimStep total s =
            (⟨s.dist + 4 / 5, AppStatus.arrived, false⟩, none) := by
          simp only [simAnimStep, hrun2]
          rw [if_neg (by simp : ¬ (true = false)), if_pos hreach]
        simp only [runSimSteps, hstep] at hd
        exact ih _ d hd
      · have hstep : simAnimStep total s =
            (⟨s.dist + 4 / 5, s.status, true⟩, some (s.dist + 4 / 5)) := by
          simp only [simAnimStep, hrun2]
          rw [if_neg (by simp : ¬ (true = false)), if_neg hreach]
        simp only [runSimSteps, hstep] at hd
        rcases List.mem_cons.mp hd with rfl | hd2
        · exact not_le.mp hreach
        · exact ih _ d hd2

/-- C9: simulator arrival: at the first executed step where the total
distance traveled reaches the route's total polyline distance, the step
stops the simulation and sets the status to `arrived` without processing a
fix; any number of subsequent steps process no further fix and leave the
state unchanged; and every fix processed before that lies strictly below
the total. -/
theorem C9_sim_arrival (total : ℚ) (s : SimState) (n : ℕ)
    (hrun : s.running = true) (hreach : total ≤ s.dist + 4 / 5) :
    simAnimStep total s = (⟨s.dist + 4 / 5, AppStatus.arrived, false⟩, none) ∧
    runSimSteps total ⟨s.dist + 4 / 5, AppStatus.arrived, false⟩ n =
      (⟨s.dist + 4 / 5, AppStatus.arrived, false⟩, []) ∧
    (∀ d ∈ (runSimSteps total s n).2, d < total) := by
  refine ⟨?_, runSimSteps_stopped total n _ rfl, runSimSteps_below_total total n s⟩
  simp only [simAnimStep, hrun]
  rw [if_neg (by simp : ¬ (true = false)), if_pos hreach]

/-- C9 witness: total distance 2, simulator at distance 3/2 and running: the
next step reaches 23/10 ≥ 2, arrives and stops; five further steps are
no-ops, and no processed fix of any five-step run from 3/2 reaches 2. -/
theorem C9_sim_arrival_witness :
    ((⟨3 / 2, AppStatus.navigating, true⟩ : SimState).running = true ∧
      (2:ℚ) ≤ (⟨3 / 2, AppStatus.navigating, true⟩ : SimState).dist + 4 / 5) ∧
    (simAnimStep 2 ⟨3 / 2, AppStatus.navigating, true⟩ =
        (⟨3 / 2 + 4 / 5, AppStatus.arrived, false⟩, none) ∧
      runSimSteps 2 ⟨3 / 2 + 4 / 5, AppStatus.arrived, false⟩ 5 =
        (⟨3 / 2 + 4 / 5, AppStatus.arrived, false⟩, []) ∧
      (∀ d ∈ (runSimSteps 2 ⟨3 / 2, AppStatus.navigating, true⟩ 5).2, d < 2)) :=
  ⟨⟨rfl, by norm_num⟩,
    C9_sim_arrival 2 ⟨3 / 2, AppStatus.navigating, true⟩ 5 rfl (by norm_num)⟩

end MotoApp
